import Mathlib

/-!
Shallow embedding of the ruby-libvirt binding layer
(`ext/libvirt/common.c`, `ext/libvirt/common.h`, `ext/libvirt/network.c`).

Host-language (Ruby) values are modelled by an inductive `RubyValue`;
raised Ruby exceptions by `RubyExc`; native callback behaviour (which
libvirt calls succeed or fail, and with what data) by explicit oracle
structures, so that every control path of the C code becomes a total
Lean function.  C doubles are carried opaquely (this layer only stores
and re-reads them, never computes with them), so an `Int` carrier is
used for the `double` union member.
-/

/-- The Ruby exception classes this layer raises through `rb_raise` /
`ruby_libvirt_create_error`. `libvirtError` is `e_Error`,
`retrieveError` is `e_RetrieveError`. -/
inductive ErrClass
  | typeError
  | argError
  | retrieveError
  | libvirtError
  | systemCallError
  deriving DecidableEq, Repr

/-- A Ruby `VALUE` as far as this binding layer can observe it. `vflt`
carries the Float opaquely. `vother` stands for any object of a class
this layer never converts successfully (Symbol, Proc, ...). -/
inductive RubyValue
  | vnil
  | vbool (b : Bool)
  | vnum (n : Int)
  | vflt (d : Int)
  | vstr (s : String)
  | vother
  deriving DecidableEq, Repr

/-- The most recent native error recorded by libvirt (`virError`):
code, domain ("component"), level, and an optional message string. -/
structure VirError where
  code : Int
  domain : Int
  level : Int
  message : Option String
  deriving DecidableEq, Repr

/-- Thread-global plus connection-scoped native error state, read by
`virGetLastError` / `virConnGetLastError`.  Connections are named by
naturals. -/
structure ErrorState where
  globalError : Option VirError
  connError : Nat → Option VirError

/-- The structured Ruby exception object built by
`ruby_libvirt_create_error`: the formatted message plus the instance
variables `@libvirt_function_name`, `@libvirt_code`,
`@libvirt_component`, `@libvirt_level`, `@libvirt_message` (the last
four only set when a native error, resp. its message, was recorded). -/
structure LibvirtError where
  errClass : ErrClass
  message : String
  functionName : String
  code : Option Int
  component : Option Int
  level : Option Int
  libvirtMessage : Option String
  deriving DecidableEq, Repr

/-- A raised Ruby exception: either a plain `rb_raise` of a builtin
class with a message, or a structured error from
`ruby_libvirt_create_error`. -/
inductive RubyExc
  | std (cls : ErrClass) (msg : String)
  | libvirt (e : LibvirtError)
  deriving DecidableEq, Repr

/-- `virGetLastError`: the thread-global last error. -/
def virGetLastError (st : ErrorState) : Option VirError :=
  st.globalError

/-- `virConnGetLastError`: the connection-scoped last error. -/
def virConnGetLastError (st : ErrorState) (conn : Nat) : Option VirError :=
  st.connError conn

/-- The native error `ruby_libvirt_create_error` reads: connection
scoped when a connection is supplied, global otherwise
(common.c lines 97-102). -/
def lastErrorRead (conn : Option Nat) (st : ErrorState) : Option VirError :=
  match conn with
  | none => virGetLastError st
  | some c => virConnGetLastError st c

/-- `ruby_libvirt_create_error` (common.c lines 87-139): reads the
last native error, formats `"Call to <method> failed[: <message>]"`,
and attaches the structured fields. -/
def ruby_libvirt_create_error (error : ErrClass) (method : String)
    (conn : Option Nat) (st : ErrorState) : LibvirtError :=
  let err := lastErrorRead conn st
  let msg :=
    match err with
    | some e =>
      match e.message with
      | some m => "Call to " ++ method ++ " failed: " ++ m
      | none => "Call to " ++ method ++ " failed"
    | none => "Call to " ++ method ++ " failed"
  { errClass := error
    message := msg
    functionName := method
    code := err.map (fun e => e.code)
    component := err.map (fun e => e.domain)
    level := err.map (fun e => e.level)
    libvirtMessage := err.bind (fun e => e.message) }

/-- An error state with nothing recorded anywhere. -/
def emptyErrState : ErrorState :=
  ⟨none, fun _ => none⟩

/-! ## List materializer: `ruby_libvirt_generate_list` (common.c 180-218) -/

/-- Failure-injection oracle for `ruby_libvirt_generate_list`: whether
the protected `rb_ary_new2` raises, and for each index whether the
protected `rb_str_new2` (conversion) or `rb_ary_store` raises. -/
structure ListGenEnv where
  newFails : Bool
  strFails : Nat → Bool
  storeFails : Nat → Bool

/-- Observable outcome of `ruby_libvirt_generate_list`: whether it
returned normally, which indices of `list` were `xfree`d inside the
loop (line 205), which ones in the exception cleanup pass (211-213),
and whether the outer `list` array itself was freed (it never is). -/
structure GenListResult where
  success : Bool
  eagerFreed : List Nat
  cleanupFreed : List Nat
  outerFreed : Bool
  deriving DecidableEq, Repr

/-- The `for (i = 0; i < num; i++)` loop of `ruby_libvirt_generate_list`
starting at index `i`; on an exception the cleanup loop frees indices
`j = i, ..., num - 1` before `rb_jump_tag`. -/
def generateListLoop (env : ListGenEnv) (num : Nat) (i : Nat) : GenListResult :=
  if h : i < num then
    if env.strFails i then
      ⟨false, [], List.range' i (num - i), false⟩
    else if env.storeFails i then
      ⟨false, [], List.range' i (num - i), false⟩
    else
      let r := generateListLoop env num (i + 1)
      { r with eagerFreed := i :: r.eagerFreed }
  else
    ⟨true, [], [], false⟩
termination_by num - i

/-- `ruby_libvirt_generate_list(num, list)`: if the protected array
allocation raises, the cleanup pass runs from `i = 0`; otherwise the
conversion loop runs. -/
def ruby_libvirt_generate_list (env : ListGenEnv) (num : Nat) : GenListResult :=
  if env.newFails then ⟨false, [], List.range' 0 num, false⟩
  else generateListLoop env num 0

/-- A host-side exception is first raised while processing index `i`
of the conversion loop (so the array allocation succeeded and all
indices before `i` converted and stored cleanly). -/
def firstFailAt (env : ListGenEnv) (num i : Nat) : Prop :=
  env.newFails = false ∧ i < num ∧
    (env.strFails i = true ∨ env.storeFails i = true) ∧
    ∀ j, j < i → env.strFails j = false ∧ env.storeFails j = false

theorem generateListLoop_spec (env : ListGenEnv) (num : Nat) :
    ∀ d i, num - i = d →
      (generateListLoop env num i).eagerFreed ++ (generateListLoop env num i).cleanupFreed
          = List.range' i (num - i)
      ∧ (generateListLoop env num i).outerFreed = false
      ∧ ((generateListLoop env num i).success = true →
          (generateListLoop env num i).cleanupFreed = []) := by
  intro d
  induction d with
  | zero =>
    intro i hi
    have hge : ¬ i < num := by omega
    rw [generateListLoop]
    simp [hge, hi]
  | succ d ih =>
    intro i hi
    have hlt : i < num := by omega
    rw [generateListLoop]
    simp only [hlt, dif_pos]
    by_cases hs : env.strFails i
    · simp [hs]
    · by_cases hst : env.storeFails i
      · simp [hs, hst]
      · have hrec := ih (i + 1) (by omega)
        have hr : List.range' i (num - i) = i :: List.range' (i + 1) (num - (i + 1)) := by
          have : num - i = (num - (i + 1)) + 1 := by omega
          rw [this, List.range'_succ]
        simp only [hs, hst, if_false, Bool.false_eq_true]
        refine ⟨?_, hrec.2.1, hrec.2.2⟩
        simp only [List.cons_append, hrec.1, hr]

theorem generateListLoop_firstFail (env : ListGenEnv) (num : Nat) :
    ∀ d i k, k - i = d → i ≤ k → k < num →
      (∀ j, i ≤ j → j < k → env.strFails j = false ∧ env.storeFails j = false) →
      (env.strFails k = true ∨ env.storeFails k = true) →
      (generateListLoop env num i).eagerFreed = List.range' i (k - i)
      ∧ (generateListLoop env num i).cleanupFreed = List.range' k (num - k) := by
  intro d
  induction d with
  | zero =>
    intro i k hd hik hk hok hfail
    have hik' : i = k := by omega
    subst hik'
    rw [generateListLoop]
    simp only [hk, dif_pos]
    rcases hfail with hf | hf
    · simp [hf]
    · by_cases hs : env.strFails i
      · simp [hs]
      · simp [hs, hf]
  | succ d ih =>
    intro i k hd hik hk hok hfail
    have hlt : i < num := by omega
    have hiok := hok i (le_refl i) (by omega)
    rw [generateListLoop]
    simp only [hlt, dif_pos, hiok.1, hiok.2, Bool.false_eq_true, if_false]
    have hrec := ih (i + 1) k (by omega) (by omega) hk
      (fun j hj1 hj2 => hok j (by omega) hj2) hfail
    refine ⟨?_, hrec.2⟩
    have hr : List.range' i (k - i) = i :: List.range' (i + 1) (k - (i + 1)) := by
      have : k - i = (k - (i + 1)) + 1 := by omega
      rw [this, List.range'_succ]
    simp only [hrec.1, hr]

/-- C1: every one of the `num` native entries handed to
`ruby_libvirt_generate_list` is freed exactly once across the success
and failure paths combined (the indices freed form exactly
`List.range num`); the outer array is never freed by this function; on
a fully successful run each entry is freed by the conversion loop and
the cleanup pass frees nothing; and if a host-side exception is first
raised while processing index `i`, the cleanup pass frees exactly the
entries at indices `[i, num)`. -/
theorem generate_list_frees_each_entry_exactly_once (env : ListGenEnv) (num : Nat) :
    (ruby_libvirt_generate_list env num).eagerFreed
        ++ (ruby_libvirt_generate_list env num).cleanupFreed = List.range num
    ∧ (ruby_libvirt_generate_list env num).outerFreed = false
    ∧ ((ruby_libvirt_generate_list env num).success = true →
        (ruby_libvirt_generate_list env num).eagerFreed = List.range num
        ∧ (ruby_libvirt_generate_list env num).cleanupFreed = [])
    ∧ (∀ i, firstFailAt env num i →
        (ruby_libvirt_generate_list env num).eagerFreed = List.range i
        ∧ (ruby_libvirt_generate_list env num).cleanupFreed = List.range' i (num - i)) := by
  rw [ruby_libvirt_generate_list]
  by_cases hn : env.newFails
  · simp only [hn, if_true]
    refine ⟨by simp [List.range_eq_range'], by trivial, ?_, ?_⟩
    · intro h
      cases h
    · intro i hi
      exact absurd hi.1 (by simp [hn])
  · simp only [hn, Bool.false_eq_true, if_false]
    have hspec := generateListLoop_spec env num (num - 0) 0 rfl
    rw [Nat.sub_zero] at hspec
    refine ⟨by rw [hspec.1, List.range_eq_range'], hspec.2.1, ?_, ?_⟩
    · intro hsucc
      have hcl := hspec.2.2 hsucc
      have heq := hspec.1
      rw [hcl, List.append_nil] at heq
      exact ⟨by rw [heq, List.range_eq_range'], hcl⟩
    · intro i hi
      obtain ⟨hnf, hilt, hfail, hbefore⟩ := hi
      have hff := generateListLoop_firstFail env num (i - 0) 0 i rfl (Nat.zero_le i) hilt
        (fun j _ hj => hbefore j hj) hfail
      rw [Nat.sub_zero] at hff
      exact ⟨by rw [hff.1, List.range_eq_range'], hff.2⟩

/-- Concrete run of the C1 theorem: 4 entries, conversion of index 2
raises; indices 0 and 1 were freed eagerly and the cleanup pass freed
exactly indices 2 and 3. -/
theorem generate_list_frees_each_entry_exactly_once_witness :
    firstFailAt ⟨false, fun j => j == 2, fun _ => false⟩ 4 2
    ∧ (ruby_libvirt_generate_list ⟨false, fun j => j == 2, fun _ => false⟩ 4).eagerFreed
        = List.range 2
    ∧ (ruby_libvirt_generate_list ⟨false, fun j => j == 2, fun _ => false⟩ 4).cleanupFreed
        = List.range' 2 2 := by
  have hf : firstFailAt ⟨false, fun j => j == 2, fun _ => false⟩ 4 2 := by
    refine ⟨rfl, by omega, Or.inl rfl, ?_⟩
    intro j hj
    interval_cases j <;> exact ⟨rfl, rfl⟩
  have h := generate_list_frees_each_entry_exactly_once
    ⟨false, fun j => j == 2, fun _ => false⟩ 4
  exact ⟨hf, (h.2.2.2 2 hf).1, (h.2.2.2 2 hf).2⟩

/-! ## List-all call shape: `gen_list_all` (common.h 112-152) -/

/-- Failure-injection oracle for the `gen_list_all` macro body:
whether the protected `rb_ary_new2` raises, whether `newfunc` (the
wrapping constructor, called outside `rb_protect`) raises at index
`i`, and whether the protected `rb_ary_push` raises at index `i`. -/
structure ListAllEnv where
  newArrFails : Bool
  wrapFails : Nat → Bool
  pushFails : Nat → Bool

/-- Observable outcome of `gen_list_all` over a returned native array
of `ret` elements: whether it returned normally, which indices were
wrapped and appended to the result array, which indices were passed to
`freefunc`, and whether the outer array was passed to `free`. -/
structure ListAllResult where
  success : Bool
  pushed : List Nat
  freed : List Nat
  outerFreed : Bool
  deriving DecidableEq, Repr

/-- The `for (i = 0; i < ret; i++)` loop of `gen_list_all`.  A raise
inside `newfunc` happens outside any `rb_protect`, so it propagates
with no cleanup at all; a raise inside the protected `rb_ary_push`
jumps to the cleanup label, whose loop restarts at `i = 0` and passes
every index `[0, ret)` to `freefunc` before freeing the outer array. -/
def genListAllLoop (env : ListAllEnv) (ret : Nat) (i : Nat) (pushed : List Nat) :
    ListAllResult :=
  if _h : i < ret then
    if env.wrapFails i then
      ⟨false, pushed, [], false⟩
    else if env.pushFails i then
      ⟨false, pushed, List.range ret, true⟩
    else
      genListAllLoop env ret (i + 1) (pushed ++ [i])
  else
    ⟨true, pushed, [], true⟩
termination_by ret - i

/-- `gen_list_all` after `listfunc` succeeded with `ret` elements:
a raise in the protected `rb_ary_new2` also jumps to the cleanup
label (freeing `[0, ret)` and the outer array); otherwise the wrap
loop runs, and on normal completion only the outer array is freed. -/
def gen_list_all (env : ListAllEnv) (ret : Nat) : ListAllResult :=
  if env.newArrFails then ⟨false, [], List.range ret, true⟩
  else genListAllLoop env ret 0 []

/-- The failing input for C2: three returned handles, wrapping
succeeds everywhere, and the protected push of the wrapped element at
index 1 raises. -/
def listAllEnvPushFailsAt1 : ListAllEnv :=
  ⟨false, fun _ => false, fun i => i == 1⟩

/-- C2 (code bug, evaluated at the failing input): with handles
`[h1, h2, h3]` and the push of wrapped `h2` raising, the cleanup loop
of `gen_list_all` restarts at index 0 and passes ALL THREE elements to
`freefunc` — including `h1` (index 0), which had already been wrapped
and appended successfully — before freeing the outer array.  The
claim (and common.h's sibling `ruby_libvirt_generate_list`, which
carefully frees only `[i, num)`) requires that already-wrapped
elements not be passed to `freefunc`; here `h1` is released twice:
once by `freefunc` and again when its wrapper is finalized. -/
theorem gen_list_all_cleanup_frees_already_wrapped :
    gen_list_all listAllEnvPushFailsAt1 3
      = ⟨false, [0], [0, 1, 2], true⟩
    ∧ 0 ∈ (gen_list_all listAllEnvPushFailsAt1 3).pushed
    ∧ 0 ∈ (gen_list_all listAllEnvPushFailsAt1 3).freed := by
  have h : gen_list_all listAllEnvPushFailsAt1 3 = ⟨false, [0], [0, 1, 2], true⟩ := by
    rw [gen_list_all]
    rw [show listAllEnvPushFailsAt1.newArrFails = false from rfl]
    rw [genListAllLoop, genListAllLoop]
    norm_num [listAllEnvPushFailsAt1, List.range]
    rfl
  refine ⟨h, ?_, ?_⟩ <;> rw [h] <;> simp

/-! ## Typed-parameter codec (common.c 220-402) -/

/-- The `virTypedParameter` kind tag.  `unknown` stands for any tag
value outside the seven recognized `VIR_TYPED_PARAM_*` constants
(the `default:` branches of the two switches). -/
inductive ParamKind
  | int
  | uint
  | llong
  | ullong
  | double
  | boolean
  | string
  deriving DecidableEq, Repr

/-- A kind tag together with the possibility of an unrecognized tag. -/
inductive ParamTag
  | known (k : ParamKind)
  | unknown
  deriving DecidableEq, Repr

/-- One native `virTypedParameter`: field name, kind tag, and the
value union.  The numeric members (`i`/`ui`/`l`/`ul`/`d`/`b`) are
modelled by the single carrier `valInt` (the C `double` is carried
opaquely — this layer never computes with it) and the `s` member by
`valStr`. -/
structure VirTypedParameter where
  field : String
  ptype : ParamTag
  valInt : Int
  valStr : String
  deriving DecidableEq, Repr

/-- A Ruby hash with string keys, as this layer uses it: an
association list in insertion order. -/
abbrev RHash : Type := List (String × RubyValue)

/-- `rb_hash_aset`: replace the value at an existing key, else append
the new pair. -/
def hashAset (h : RHash) (k : String) (v : RubyValue) : RHash :=
  match h with
  | [] => [(k, v)]
  | (k0, v0) :: rest =>
    if k0 = k then (k0, v) :: rest else (k0, v0) :: hashAset rest k v

/-- `rb_hash_aref`: the value at a key, `nil` when absent. -/
def hashAref (h : RHash) (k : String) : RubyValue :=
  match h with
  | [] => .vnil
  | (k0, v0) :: rest => if k0 = k then v0 else hashAref rest k

/-- `rb_hash_aset` never stores a key it was not given. -/
def hashHasKey (h : RHash) (k : String) : Bool :=
  match h with
  | [] => false
  | (k0, _) :: rest => k0 == k || hashHasKey rest k

/-- `NUM2INT`: a Ruby Integer (or Float, truncated — carrier passed
through) converts; anything else raises `TypeError`. -/
def num2int : RubyValue → Except RubyExc Int
  | .vnum n => .ok n
  | .vflt d => .ok d
  | _ => .error (.std .typeError "no implicit conversion into Integer")

/-- `NUM2UINT` (range checking not modelled). -/
def num2uint : RubyValue → Except RubyExc Int
  | .vnum n => .ok n
  | .vflt d => .ok d
  | _ => .error (.std .typeError "no implicit conversion into Integer")

/-- `NUM2LL`. -/
def num2ll : RubyValue → Except RubyExc Int
  | .vnum n => .ok n
  | .vflt d => .ok d
  | _ => .error (.std .typeError "no implicit conversion into Integer")

/-- `NUM2ULL`. -/
def num2ull : RubyValue → Except RubyExc Int
  | .vnum n => .ok n
  | .vflt d => .ok d
  | _ => .error (.std .typeError "no implicit conversion into Integer")

/-- `NUM2DBL`: numeric converts, anything else raises `TypeError`. -/
def num2dbl : RubyValue → Except RubyExc Int
  | .vnum n => .ok n
  | .vflt d => .ok d
  | _ => .error (.std .typeError "no implicit conversion into Float")

/-- `StringValueCStr`: a Ruby String converts, anything else raises
`TypeError`. -/
def stringValueCStr : RubyValue → Except RubyExc String
  | .vstr s => .ok s
  | _ => .error (.std .typeError "no implicit conversion into String")

/-- One iteration of the `ruby_libvirt_params_to_hash` switch
(common.c 227-251): the Ruby value decoded from one native slot,
or the `ArgumentError` of the `default:` branch. -/
def paramToValue (p : VirTypedParameter) : Except RubyExc RubyValue :=
  match p.ptype with
  | .known .int => .ok (.vnum p.valInt)
  | .known .uint => .ok (.vnum p.valInt)
  | .known .llong => .ok (.vnum p.valInt)
  | .known .ullong => .ok (.vnum p.valInt)
  | .known .double => .ok (.vflt p.valInt)
  | .known .boolean => .ok (if p.valInt = 0 then .vbool false else .vbool true)
  | .known .string => .ok (.vstr p.valStr)
  | .unknown => .error (.std .argError "Invalid parameter type")

/-- `ruby_libvirt_params_to_hash(params, nparams, hash)`: store each
decoded slot into the hash under its field name; an unrecognized tag
raises before any further slot is stored. -/
def ruby_libvirt_params_to_hash : List VirTypedParameter → RHash → Except RubyExc RHash
  | [], hash => .ok hash
  | p :: rest, hash =>
    match paramToValue p with
    | .error e => .error e
    | .ok val => ruby_libvirt_params_to_hash rest (hashAset hash p.field val)

/-- One iteration of the overlay switch of
`ruby_libvirt_set_typed_parameters` (common.c 368-392): convert the
host value into the slot using the kind tag already present in the
slot.  The boolean branch is total: `(val == Qtrue) ? 1 : 0`. -/
def encodeParam (p : VirTypedParameter) (val : RubyValue) : Except RubyExc VirTypedParameter :=
  match p.ptype with
  | .known .int => (num2int val).map fun x => { p with valInt := x }
  | .known .uint => (num2uint val).map fun x => { p with valInt := x }
  | .known .llong => (num2ll val).map fun x => { p with valInt := x }
  | .known .ullong => (num2ull val).map fun x => { p with valInt := x }
  | .known .double => (num2dbl val).map fun x => { p with valInt := x }
  | .known .boolean => .ok { p with valInt := if val = .vbool true then 1 else 0 }
  | .known .string => (stringValueCStr val).map fun s => { p with valStr := s }
  | .unknown => .error (.std .argError "Invalid parameter type")

/-- The overlay loop of `ruby_libvirt_set_typed_parameters`
(common.c 362-393): for each existing slot, look its field name up in
the input hash; `nil` (absent or explicitly nil) leaves the slot
untouched; otherwise the host value is converted into the slot using
the slot's own kind tag, and the first conversion failure raises. -/
def setTypedParamsLoop (input : RHash) : List VirTypedParameter → Except RubyExc (List VirTypedParameter)
  | [] => .ok []
  | p :: rest =>
    match hashAref input p.field with
    | .vnil => (setTypedParamsLoop input rest).map fun rest2 => p :: rest2
    | val =>
      match encodeParam p val with
      | .error e => .error e
      | .ok p2 => (setTypedParamsLoop input rest).map fun rest2 => p2 :: rest2

/-- Callback oracle for `ruby_libvirt_get_typed_parameters` /
`ruby_libvirt_set_typed_parameters`: what the count callback
(`nparams_cb`), the fetch callback (`get_cb`) and the commit callback
(`set_cb`) would do if invoked.  Each callback returns the failing
native function's name on error and `none`/data on success, exactly
the `char *errname` convention of the C code.  `conn` and `errState`
feed `ruby_libvirt_create_error` on a callback failure. -/
structure TypedParamsEnv where
  countResult : Except String Nat
  fetchResult : Except String (List VirTypedParameter)
  commitResult : Option String
  conn : Option Nat
  errState : ErrorState

/-- Observable outcome of `ruby_libvirt_get_typed_parameters`. -/
structure GetParamsResult where
  result : Except RubyExc RHash
  countCalled : Bool
  fetchCalled : Bool

/-- Observable outcome of `ruby_libvirt_set_typed_parameters`:
`committed` is the parameter buffer handed to the commit callback,
when it was invoked. -/
structure SetParamsResult where
  result : Except RubyExc RubyValue
  countCalled : Bool
  fetchCalled : Bool
  commitCalled : Bool
  committed : Option (List VirTypedParameter)

/-- `ruby_libvirt_get_typed_parameters` (common.c 257-293): count,
short-circuit on zero with the fresh empty hash, fetch, decode. -/
def ruby_libvirt_get_typed_parameters (env : TypedParamsEnv) : GetParamsResult :=
  match env.countResult with
  | .error errname =>
    ⟨.error (.libvirt (ruby_libvirt_create_error .retrieveError errname env.conn env.errState)),
      true, false⟩
  | .ok nparams =>
    if nparams = 0 then ⟨.ok [], true, false⟩
    else
      match env.fetchResult with
      | .error errname =>
        ⟨.error (.libvirt (ruby_libvirt_create_error .retrieveError errname env.conn env.errState)),
          true, true⟩
      | .ok params =>
        match ruby_libvirt_params_to_hash params [] with
        | .error e => ⟨.error e, true, true⟩
        | .ok hash => ⟨.ok hash, true, true⟩

/-- `ruby_libvirt_set_typed_parameters` (common.c 314-402): an empty
input hash returns `nil` before any callback; otherwise count, fetch
(with NO zero-count short-circuit), overlay, commit. -/
def ruby_libvirt_set_typed_parameters (env : TypedParamsEnv) (input : RHash) :
    SetParamsResult :=
  if input.isEmpty then ⟨.ok .vnil, false, false, false, none⟩
  else
    match env.countResult with
    | .error errname =>
      ⟨.error (.libvirt (ruby_libvirt_create_error .retrieveError errname env.conn env.errState)),
        true, false, false, none⟩
    | .ok _nparams =>
      match env.fetchResult with
      | .error errname =>
        ⟨.error (.libvirt (ruby_libvirt_create_error .retrieveError errname env.conn env.errState)),
          true, true, false, none⟩
      | .ok params =>
        match setTypedParamsLoop input params with
        | .error e => ⟨.error e, true, true, false, none⟩
        | .ok params2 =>
          match env.commitResult with
          | some errname =>
            ⟨.error (.libvirt (ruby_libvirt_create_error .retrieveError errname env.conn env.errState)),
              true, true, true, some params2⟩
          | none => ⟨.ok .vnil, true, true, true, some params2⟩

/-! ## Native handle: `generic_get` / `gen_call_free` (common.h 8-16,
62-75) instantiated by network.c -/

/-- A managed wrapper around one native pointer (`DATA_PTR`); the
pointer is a `Nat`, with `0` modelling `NULL`. -/
structure NetworkHandle where
  dataPtr : Nat
  deriving DecidableEq, Repr

/-- `network_get` = `generic_get(Network, v)` (network.c 37-40,
common.h 8-16): raise `ArgumentError` `"Network has been freed"` when
the stored pointer is null, else return the pointer. -/
def network_get (n : NetworkHandle) : Except RubyExc Nat :=
  if n.dataPtr = 0 then .error (.std .argError "Network has been freed")
  else .ok n.dataPtr

/-- Observable outcome of a void-call binding method: the Ruby-level
result and the pointer passed to the native function, if any was. -/
structure VoidCallResult where
  result : Except RubyExc RubyValue
  derefed : Option Nat
  deriving Repr

/-- `libvirt_netw_undefine` (network.c 54-57), the `gen_call_void`
shape: `network_get` runs first and its raise propagates before the
native function is invoked; otherwise the native function gets the
non-null pointer and a negative return raises via
`ruby_libvirt_create_error`. -/
def libvirt_netw_undefine (virNetworkUndefine : Nat → Int) (conn : Nat)
    (st : ErrorState) (n : NetworkHandle) : VoidCallResult :=
  match network_get n with
  | .error e => ⟨.error e, none⟩
  | .ok ptr =>
    if virNetworkUndefine ptr < 0 then
      ⟨.error (.libvirt (ruby_libvirt_create_error .libvirtError "virNetworkUndefine"
          (some conn) st)), some ptr⟩
    else ⟨.ok .vnil, some ptr⟩

/-- Observable outcome of `libvirt_netw_free` (`gen_call_free`): the
Ruby-level result, the stored pointer afterwards, and whether the
native `virNetworkFree` was invoked. -/
structure FreeCallResult where
  result : Except RubyExc RubyValue
  dataPtrAfter : Nat
  nativeFreeCalled : Bool
  deriving Repr

/-- `libvirt_netw_free` (network.c 204-207) = `gen_call_free(Network, n)`
(common.h 65-75): if the stored pointer is non-null, call
`virNetworkFree`, raise on negative return (leaving the pointer), else
null the pointer; if the pointer is already null, do nothing and
return `Qnil`. -/
def libvirt_netw_free (virNetworkFree : Nat → Int) (conn : Nat) (st : ErrorState)
    (n : NetworkHandle) : FreeCallResult :=
  if n.dataPtr ≠ 0 then
    if virNetworkFree n.dataPtr < 0 then
      ⟨.error (.libvirt (ruby_libvirt_create_error .libvirtError "virNetworkFree"
          (some conn) st)), n.dataPtr, true⟩
    else ⟨.ok .vnil, 0, true⟩
  else ⟨.ok .vnil, n.dataPtr, false⟩

/-- C5: once the wrapped pointer has been nulled, `network_get` and
the binding methods built on it raise the `"has been freed"`
`ArgumentError` instead of dereferencing the null pointer: the native
function is never invoked on a freed handle, and every pointer that
does reach a native call is non-null. -/
theorem freed_network_handle_raises (native : Nat → Int) (conn : Nat) (st : ErrorState)
    (n : NetworkHandle) :
    (n.dataPtr = 0 →
      network_get n = .error (.std .argError "Network has been freed")
      ∧ (libvirt_netw_undefine native conn st n).result
          = .error (.std .argError "Network has been freed")
      ∧ (libvirt_netw_undefine native conn st n).derefed = none)
    ∧ (∀ ptr, network_get n = .ok ptr → ptr ≠ 0)
    ∧ (∀ ptr, (libvirt_netw_undefine native conn st n).derefed = some ptr → ptr ≠ 0) := by
  by_cases h0 : n.dataPtr = 0
  · refine ⟨fun _ => ?_, ?_, ?_⟩
    · simp [network_get, libvirt_netw_undefine, h0]
    · intro ptr hptr
      simp [network_get, h0] at hptr
    · intro ptr hptr
      simp [libvirt_netw_undefine, network_get, h0] at hptr
  · refine ⟨fun h => absurd h h0, ?_, ?_⟩
    · intro ptr hptr
      simp only [network_get, h0, if_false] at hptr
      cases hptr
      exact h0
    · intro ptr hptr
      simp only [libvirt_netw_undefine, network_get, h0, if_false] at hptr
      by_cases hneg : native n.dataPtr < 0 <;> simp [hneg] at hptr <;> omega
  
/-- Concrete run of the C5 theorem: on a handle whose pointer was
nulled, `net.undefine` raises the freed error and the native function
is never reached. -/
theorem freed_network_handle_raises_witness :
    (libvirt_netw_undefine (fun _ => 0) 7 emptyErrState ⟨0⟩).result
      = .error (.std .argError "Network has been freed")
    ∧ (libvirt_netw_undefine (fun _ => 0) 7 emptyErrState ⟨0⟩).derefed = none := by
  have h := freed_network_handle_raises (fun _ => 0) 7 emptyErrState ⟨0⟩
  exact ⟨(h.1 rfl).2.1, (h.1 rfl).2.2⟩

/-- C6 counterexample: calling free on a handle whose pointer is
already null silently succeeds — it returns `Qnil`, raises nothing,
and does not invoke the native free.  The claim that a double free
attempt "fails loudly by raising an error" is false; `gen_call_free`'s
own comment (common.h 62-63) documents the no-op. -/
theorem netw_free_double_free_is_silent_noop :
    libvirt_netw_free (fun _ => 0) 1 emptyErrState ⟨0⟩ = ⟨.ok .vnil, 0, false⟩ := rfl

/-- C6 (amended): the null check makes the native free run at most
once — it is invoked exactly when the stored pointer is non-null, and
on success the pointer is nulled — but a free attempt on an
already-nulled handle silently returns `Qnil` as a no-op rather than
raising. -/
theorem netw_free_exactly_once (virFree : Nat → Int) (conn : Nat) (st : ErrorState)
    (n : NetworkHandle) :
    (n.dataPtr = 0 →
      libvirt_netw_free virFree conn st n = ⟨.ok .vnil, 0, false⟩)
    ∧ (libvirt_netw_free virFree conn st n).nativeFreeCalled = (n.dataPtr ≠ 0)
    ∧ (n.dataPtr ≠ 0 → 0 ≤ virFree n.dataPtr →
        libvirt_netw_free virFree conn st n = ⟨.ok .vnil, 0, true⟩) := by
  by_cases h0 : n.dataPtr = 0
  · refine ⟨fun _ => ?_, ?_, fun h => absurd h0 h⟩
    · simp [libvirt_netw_free, h0]
    · simp [libvirt_netw_free, h0]
  · refine ⟨fun h => absurd h h0, ?_, ?_⟩
    · by_cases hneg : virFree n.dataPtr < 0 <;> simp [libvirt_netw_free, h0, hneg]
    · intro _ hge
      have hneg : ¬ virFree n.dataPtr < 0 := by omega
      simp [libvirt_netw_free, h0, hneg]

/-- Concrete run of the C6 theorem: a live handle is freed once
(native free invoked, pointer nulled); a second free on the now-nulled
handle is a silent no-op. -/
theorem netw_free_exactly_once_witness :
    libvirt_netw_free (fun _ => 0) 2 emptyErrState ⟨5⟩ = ⟨.ok .vnil, 0, true⟩
    ∧ libvirt_netw_free (fun _ => 0) 2 emptyErrState ⟨0⟩ = ⟨.ok .vnil, 0, false⟩ := by
  have h5 := netw_free_exactly_once (fun _ => 0) 2 emptyErrState ⟨5⟩
  have h0 := netw_free_exactly_once (fun _ => 0) 2 emptyErrState ⟨0⟩
  exact ⟨h5.2.2 (by decide) (by decide), h0.1 rfl⟩

/-- C8: `ruby_libvirt_create_error` reads connection-scoped native
error state when a connection is supplied and global state otherwise;
with no recorded message the formatted message is exactly the generic
`"Call to <function> failed"` form; with a recorded message it embeds
the function name and the native message; and the structured error
carries the function name, native code, native domain (component),
native level and optional message as individual fields. -/
theorem create_error_spec (cls : ErrClass) (method : String) (conn : Option Nat)
    (st : ErrorState) :
    (ruby_libvirt_create_error cls method conn st).functionName = method
    ∧ (ruby_libvirt_create_error cls method conn st).errClass = cls
    ∧ (conn = none → lastErrorRead conn st = virGetLastError st)
    ∧ (∀ c, conn = some c → lastErrorRead conn st = virConnGetLastError st c)
    ∧ (lastErrorRead conn st = none →
        ruby_libvirt_create_error cls method conn st
          = ⟨cls, "Call to " ++ method ++ " failed", method, none, none, none, none⟩)
    ∧ (∀ er, lastErrorRead conn st = some er → er.message = none →
        (ruby_libvirt_create_error cls method conn st).message
          = "Call to " ++ method ++ " failed")
    ∧ (∀ er m, lastErrorRead conn st = some er → er.message = some m →
        (ruby_libvirt_create_error cls method conn st).message
          = "Call to " ++ method ++ " failed: " ++ m)
    ∧ (∀ er, lastErrorRead conn st = some er →
        (ruby_libvirt_create_error cls method conn st).code = some er.code
        ∧ (ruby_libvirt_create_error cls method conn st).component = some er.domain
        ∧ (ruby_libvirt_create_error cls method conn st).level = some er.level
        ∧ (ruby_libvirt_create_error cls method conn st).libvirtMessage = er.message) := by
  refine ⟨?_, ?_, ?_, ?_, ?_, ?_, ?_, ?_⟩
  · rcases h : lastErrorRead conn st with _ | er <;>
      simp [ruby_libvirt_create_error, h]
  · rcases h : lastErrorRead conn st with _ | er <;>
      simp [ruby_libvirt_create_error, h]
  · intro hc
    subst hc
    rfl
  · intro c hc
    subst hc
    rfl
  · intro h
    simp [ruby_libvirt_create_error, h]
  · intro er h hm
    simp [ruby_libvirt_create_error, h, hm]
  · intro er m h hm
    simp [ruby_libvirt_create_error, h, hm]
  · intro er h
    simp [ruby_libvirt_create_error, h]

/-- Concrete runs of the C8 theorem: a recorded native error with a
message yields the embedding form and the queryable fields; no
recorded error yields exactly the generic form. -/
theorem create_error_spec_witness :
    (ruby_libvirt_create_error .retrieveError "virFoo" none
        ⟨some ⟨10, 20, 30, some "boom"⟩, fun _ => none⟩).message
      = "Call to virFoo failed: boom"
    ∧ (ruby_libvirt_create_error .retrieveError "virFoo" none
        ⟨some ⟨10, 20, 30, some "boom"⟩, fun _ => none⟩).code = some 10
    ∧ ruby_libvirt_create_error .libvirtError "virBar" (some 3) emptyErrState
      = ⟨.libvirtError, "Call to virBar failed", "virBar", none, none, none, none⟩ := by
  have h1 := create_error_spec .retrieveError "virFoo" none
    ⟨some ⟨10, 20, 30, some "boom"⟩, fun _ => none⟩
  have h2 := create_error_spec .libvirtError "virBar" (some 3) emptyErrState
  refine ⟨h1.2.2.2.2.2.2.1 ⟨10, 20, 30, some "boom"⟩ "boom" rfl rfl, ?_, ?_⟩
  · exact (h1.2.2.2.2.2.2.2 ⟨10, 20, 30, some "boom"⟩ rfl).1
  · exact h2.2.2.2.2.1 rfl

/-- C10: an empty update hash makes `ruby_libvirt_set_typed_parameters`
return `nil` immediately — none of the count, fetch or commit
callbacks is invoked and nothing is committed. -/
theorem set_typed_parameters_empty_input_noop (env : TypedParamsEnv) :
    ruby_libvirt_set_typed_parameters env [] = ⟨.ok .vnil, false, false, false, none⟩ :=
  rfl

/-- The callback oracle used for the zero-count scenarios: the count
callback succeeds reporting 0 parameters, fetch succeeds with an empty
buffer, commit succeeds. -/
def tpEnvZeroCount : TypedParamsEnv :=
  ⟨.ok 0, .ok [], none, none, emptyErrState⟩

/-- C9 counterexample: with the count callback reporting `n = 0` and a
nonempty update hash, the WRITE path of the two-call protocol does not
short-circuit: `ruby_libvirt_set_typed_parameters` goes on to invoke
both the fetch callback and the commit callback (with a zero-length
buffer). -/
theorem set_typed_parameters_no_zero_count_short_circuit :
    (ruby_libvirt_set_typed_parameters tpEnvZeroCount [("f", .vnum 1)]).fetchCalled = true
    ∧ (ruby_libvirt_set_typed_parameters tpEnvZeroCount [("f", .vnum 1)]).commitCalled = true
    ∧ (ruby_libvirt_set_typed_parameters tpEnvZeroCount [("f", .vnum 1)]).committed = some [] :=
  ⟨rfl, rfl, rfl⟩

/-- C9 (amended): only the READ path short-circuits on a zero count —
`ruby_libvirt_get_typed_parameters` returns the empty hash without
invoking the fetch callback.  The write path performs no such check:
whenever the count callback succeeds (any `n`, including 0) on a
nonempty input, the fetch callback is invoked, and when fetch and the
overlay both succeed the commit callback is invoked with the overlaid
buffer. -/
theorem typed_parameters_zero_count_paths (env : TypedParamsEnv) (input : RHash) :
    (env.countResult = .ok 0 →
      ruby_libvirt_get_typed_parameters env = ⟨.ok [], true, false⟩)
    ∧ (input ≠ [] → ∀ n, env.countResult = .ok n →
        (ruby_libvirt_set_typed_parameters env input).countCalled = true
        ∧ (ruby_libvirt_set_typed_parameters env input).fetchCalled = true
        ∧ (∀ ps ps2, env.fetchResult = .ok ps → setTypedParamsLoop input ps = .ok ps2 →
            (ruby_libvirt_set_typed_parameters env input).commitCalled = true
            ∧ (ruby_libvirt_set_typed_parameters env input).committed = some ps2)) := by
  constructor
  · intro hc
    simp [ruby_libvirt_get_typed_parameters, hc]
  · intro hne n hc
    have hemp : input.isEmpty = false := by
      cases input with
      | nil => exact absurd rfl hne
      | cons a l => rfl
    refine ⟨?_, ?_, ?_⟩
    · rcases hf : env.fetchResult with ef | ps
      · simp [ruby_libvirt_set_typed_parameters, hemp, hc, hf]
      · rcases hl : setTypedParamsLoop input ps with e | ps2
        · simp [ruby_libvirt_set_typed_parameters, hemp, hc, hf, hl]
        · rcases hcm : env.commitResult with _ | ecm <;>
            simp [ruby_libvirt_set_typed_parameters, hemp, hc, hf, hl, hcm]
    · rcases hf : env.fetchResult with ef | ps
      · simp [ruby_libvirt_set_typed_parameters, hemp, hc, hf]
      · rcases hl : setTypedParamsLoop input ps with e | ps2
        · simp [ruby_libvirt_set_typed_parameters, hemp, hc, hf, hl]
        · rcases hcm : env.commitResult with _ | ecm <;>
            simp [ruby_libvirt_set_typed_parameters, hemp, hc, hf, hl, hcm]
    · intro ps ps2 hf hl
      rcases hcm : env.commitResult with _ | ecm <;>
        simp [ruby_libvirt_set_typed_parameters, hemp, hc, hf, hl, hcm]

/-- Concrete run of the C9 theorem: count reports 0; the read path
returns the empty hash without fetching, while the write path on a
nonempty hash still fetches and commits. -/
theorem typed_parameters_zero_count_paths_witness :
    ruby_libvirt_get_typed_parameters tpEnvZeroCount = ⟨.ok [], true, false⟩
    ∧ (ruby_libvirt_set_typed_parameters tpEnvZeroCount [("f", .vnum 1)]).countCalled = true
    ∧ (ruby_libvirt_set_typed_parameters tpEnvZeroCount [("f", .vnum 1)]).commitCalled = true := by
  have h := typed_parameters_zero_count_paths tpEnvZeroCount [("f", .vnum 1)]
  have h2 := h.2 (by simp) 0 rfl
  exact ⟨h.1 rfl, h2.1, (h2.2.2 [] [] rfl rfl).1⟩

theorem map_update_valInt_ok (p : VirTypedParameter) (r : Except RubyExc Int)
    (q : VirTypedParameter) (h : r.map (fun x => { p with valInt := x }) = .ok q) :
    q.ptype = p.ptype ∧ q.field = p.field := by
  cases r with
  | error e => cases h
  | ok x => cases h; exact ⟨rfl, rfl⟩

theorem map_update_valStr_ok (p : VirTypedParameter) (r : Except RubyExc String)
    (q : VirTypedParameter) (h : r.map (fun s => { p with valStr := s }) = .ok q) :
    q.ptype = p.ptype ∧ q.field = p.field := by
  cases r with
  | error e => cases h
  | ok x => cases h; exact ⟨rfl, rfl⟩

theorem encodeParam_preserves (p : VirTypedParameter) (v : RubyValue)
    (q : VirTypedParameter) (h : encodeParam p v = .ok q) :
    q.ptype = p.ptype ∧ q.field = p.field := by
  rcases hp : p.ptype with k | _
  · cases k <;> rw [encodeParam, hp] at h <;>
      first
        | (rcases hc : num2int v with e | x <;> rw [hc] at h <;> cases h <;>
            exact ⟨rfl, rfl⟩)
        | (rcases hc : num2uint v with e | x <;> rw [hc] at h <;> cases h <;>
            exact ⟨rfl, rfl⟩)
        | (rcases hc : num2ll v with e | x <;> rw [hc] at h <;> cases h <;>
            exact ⟨rfl, rfl⟩)
        | (rcases hc : num2ull v with e | x <;> rw [hc] at h <;> cases h <;>
            exact ⟨rfl, rfl⟩)
        | (rcases hc : num2dbl v with e | x <;> rw [hc] at h <;> cases h <;>
            exact ⟨rfl, rfl⟩)
        | (rcases hc : stringValueCStr v with e | x <;> rw [hc] at h <;> cases h <;>
            exact ⟨rfl, rfl⟩)
        | (cases h; exact ⟨rfl, rfl⟩)
  · rw [encodeParam, hp] at h
    cases h

theorem hashAref_of_not_hasKey (input : RHash) (k : String)
    (h : hashHasKey input k = false) : hashAref input k = .vnil := by
  induction input with
  | nil => rfl
  | cons kv rest ih =>
    rw [hashHasKey] at h
    rw [Bool.or_eq_false_iff] at h
    rw [hashAref]
    have hne : ¬ kv.1 = k := by
      intro he
      rw [he] at h
      simp at h
    rw [if_neg hne]
    exact ih h.2

theorem setTypedParamsLoop_cons_nil (input : RHash) (p : VirTypedParameter)
    (rest : List VirTypedParameter) (h : hashAref input p.field = .vnil) :
    setTypedParamsLoop input (p :: rest)
      = (setTypedParamsLoop input rest).map fun rest2 => p :: rest2 := by
  rw [setTypedParamsLoop, h]

theorem setTypedParamsLoop_cons_val (input : RHash) (p : VirTypedParameter)
    (rest : List VirTypedParameter) (v : RubyValue) (h : hashAref input p.field = v)
    (hne : v ≠ .vnil) :
    setTypedParamsLoop input (p :: rest)
      = match encodeParam p v with
        | .error e => .error e
        | .ok p2 => (setTypedParamsLoop input rest).map fun rest2 => p2 :: rest2 := by
  rw [setTypedParamsLoop, h]
  cases v <;> first | exact absurd rfl hne | rfl

/-- C3: the overlay loop of `ruby_libvirt_set_typed_parameters` is a
frame-preserving partial update: when it succeeds, every slot whose
field name looks up to `nil` in the update hash (in particular every
field name absent from it) is returned completely untouched, and every
slot whose field name is present is exactly the result of converting
the host value into that slot with `encodeParam` — which dispatches on
the kind tag already stored in the slot, never on the host value's
type — so the slot's kind tag and field name are preserved. -/
theorem set_typed_parameters_overlay_frame (input : RHash)
    (ps ps2 : List VirTypedParameter) (hok : setTypedParamsLoop input ps = .ok ps2) :
    (∀ k, hashHasKey input k = false → hashAref input k = .vnil)
    ∧ List.Forall₂ (fun p p2 =>
        (hashAref input p.field = .vnil → p2 = p)
        ∧ (hashAref input p.field ≠ .vnil →
            encodeParam p (hashAref input p.field) = .ok p2
            ∧ p2.ptype = p.ptype ∧ p2.field = p.field)) ps ps2 := by
  refine ⟨fun k hk => hashAref_of_not_hasKey input k hk, ?_⟩
  induction ps generalizing ps2 with
  | nil =>
    cases hok
    exact List.Forall₂.nil
  | cons p rest ih =>
    rcases haref : hashAref input p.field with _ | b | n | d | s | _
    case vnil =>
      rw [setTypedParamsLoop_cons_nil input p rest haref] at hok
      rcases hrest : setTypedParamsLoop input rest with e | rest2 <;> rw [hrest] at hok
      · cases hok
      · cases hok
        exact List.Forall₂.cons ⟨fun _ => rfl, fun hne => absurd haref hne⟩ (ih rest2 hrest)
    all_goals (
      rw [setTypedParamsLoop_cons_val input p rest _ haref (by intro hcon; cases hcon)] at hok
      rcases henc : encodeParam p (hashAref input p.field) with e | p2h <;>
        rw [haref] at henc <;> rw [henc] at hok
      · cases hok
      · rcases hrest : setTypedParamsLoop input rest with e | rest2 <;> rw [hrest] at hok
        · cases hok
        · cases hok
          have hpres := encodeParam_preserves p _ p2h henc
          refine List.Forall₂.cons
            ⟨fun hnil => absurd haref (by rw [hnil]; intro hcon; cases hcon),
             fun _ => ⟨by rw [haref, henc], hpres.1, hpres.2⟩⟩ (ih rest2 hrest))

/-- Concrete run of the C3 theorem: update hash `{"a" => 5}` over
slots `a` (int, 1) and `b` (string, "s"): slot `a` is converted with
its stored int tag, slot `b` is returned untouched. -/
theorem set_typed_parameters_overlay_frame_witness :
    setTypedParamsLoop [("a", .vnum 5)]
        [⟨"a", .known .int, 1, ""⟩, ⟨"b", .known .string, 0, "s"⟩]
      = .ok [⟨"a", .known .int, 5, ""⟩, ⟨"b", .known .string, 0, "s"⟩]
    ∧ hashAref [("a", .vnum 5)] "b" = .vnil := by
  have h := set_typed_parameters_overlay_frame [("a", .vnum 5)]
    [⟨"a", .known .int, 1, ""⟩, ⟨"b", .known .string, 0, "s"⟩]
    [⟨"a", .known .int, 5, ""⟩, ⟨"b", .known .string, 0, "s"⟩] rfl
  exact ⟨rfl, h.1 "b" rfl⟩

/-- Whether a host value's shape matches a slot kind in the sense of
the overlay switch: numeric kinds accept Integer and Float, string
accepts String, boolean accepts anything. -/
def shapeMatches : ParamKind → RubyValue → Bool
  | .int, .vnum _ => true
  | .int, .vflt _ => true
  | .uint, .vnum _ => true
  | .uint, .vflt _ => true
  | .llong, .vnum _ => true
  | .llong, .vflt _ => true
  | .ullong, .vnum _ => true
  | .ullong, .vflt _ => true
  | .double, .vnum _ => true
  | .double, .vflt _ => true
  | .boolean, _ => true
  | .string, .vstr _ => true
  | _, _ => false

/-- The callback oracle for the C4 scenarios: one existing boolean
parameter named "f". -/
def tpEnvBoolSlot : TypedParamsEnv :=
  ⟨.ok 1, .ok [⟨"f", .known .boolean, 1, ""⟩], none, none, emptyErrState⟩

/-- C4 counterexample: a BOOLEAN slot updated with a String host value
does not raise any type error — the overlay coerces the non-`true`
value to 0 (`(val == Qtrue) ? 1 : 0`), the commit callback IS invoked
with the mutated buffer, and the call returns `nil` successfully. -/
theorem set_typed_parameters_boolean_skips_type_check :
    (ruby_libvirt_set_typed_parameters tpEnvBoolSlot [("f", .vstr "x")]).result = .ok .vnil
    ∧ (ruby_libvirt_set_typed_parameters tpEnvBoolSlot [("f", .vstr "x")]).commitCalled = true
    ∧ (ruby_libvirt_set_typed_parameters tpEnvBoolSlot [("f", .vstr "x")]).committed
        = some [⟨"f", .known .boolean, 0, ""⟩] :=
  ⟨rfl, rfl, rfl⟩

/-- C4 (amended): for every slot kind other than boolean, a host value
of non-matching shape makes the conversion raise `TypeError`, and a
failing overlay aborts `ruby_libvirt_set_typed_parameters` with that
error before the commit callback is invoked (nothing is committed);
the boolean kind, by contrast, never raises — it coerces exactly
`true` to 1 and every other host value to 0. -/
theorem set_typed_parameters_type_mismatch (env : TypedParamsEnv) (input : RHash)
    (hne : input ≠ []) :
    (∀ n ps e, env.countResult = .ok n → env.fetchResult = .ok ps →
      setTypedParamsLoop input ps = .error e →
      (ruby_libvirt_set_typed_parameters env input).result = .error e
      ∧ (ruby_libvirt_set_typed_parameters env input).commitCalled = false
      ∧ (ruby_libvirt_set_typed_parameters env input).committed = none)
    ∧ (∀ (p : VirTypedParameter) (k : ParamKind) (v : RubyValue),
        p.ptype = .known k → k ≠ .boolean → shapeMatches k v = false →
        ∃ msg, encodeParam p v = .error (.std .typeError msg))
    ∧ (∀ (p : VirTypedParameter) (v : RubyValue), p.ptype = .known .boolean →
        encodeParam p v = .ok { p with valInt := if v = .vbool true then 1 else 0 }) := by
  have hemp : input.isEmpty = false := by
    cases input with
    | nil => exact absurd rfl hne
    | cons a l => rfl
  refine ⟨?_, ?_, ?_⟩
  · intro n ps e hc hf hl
    refine ⟨?_, ?_, ?_⟩ <;>
      simp [ruby_libvirt_set_typed_parameters, hemp, hc, hf, hl]
  · intro p k v hp hkb hsm
    cases k <;> cases v <;>
      simp_all [encodeParam, shapeMatches, num2int, num2uint, num2ll, num2ull,
        num2dbl, stringValueCStr] <;>
      exact ⟨_, rfl⟩
  · intro p v hp
    rw [encodeParam, hp]

/-- Concrete run of the C4 theorem: an INT slot updated with a String
value aborts with `TypeError` and the commit callback never runs. -/
theorem set_typed_parameters_type_mismatch_witness :
    (ruby_libvirt_set_typed_parameters
        ⟨.ok 1, .ok [⟨"f", .known .int, 1, ""⟩], none, none, emptyErrState⟩
        [("f", .vstr "x")]).result
      = .error (.std .typeError "no implicit conversion into Integer")
    ∧ (ruby_libvirt_set_typed_parameters
        ⟨.ok 1, .ok [⟨"f", .known .int, 1, ""⟩], none, none, emptyErrState⟩
        [("f", .vstr "x")]).commitCalled = false := by
  have h := set_typed_parameters_type_mismatch
    ⟨.ok 1, .ok [⟨"f", .known .int, 1, ""⟩], none, none, emptyErrState⟩
    [("f", .vstr "x")] (by simp)
  have h1 := h.1 1 [⟨"f", .known .int, 1, ""⟩]
    (.std .typeError "no implicit conversion into Integer") rfl rfl rfl
  exact ⟨h1.1, h1.2.1⟩

/-- The Ruby value a native slot decodes to (`nil` only for an
unrecognized tag, which never decodes successfully). -/
def decodedValue (p : VirTypedParameter) : RubyValue :=
  match paramToValue p with
  | .ok v => v
  | .error _ => .vnil

theorem paramToValue_known (p : VirTypedParameter) (k : ParamKind)
    (hp : p.ptype = .known k) : paramToValue p = .ok (decodedValue p) := by
  rcases h : paramToValue p with e | v
  · exfalso
    rw [paramToValue, hp] at h
    cases k <;> cases h
  · rw [decodedValue, h]

theorem decodedValue_ne_vnil (p : VirTypedParameter) (k : ParamKind)
    (hp : p.ptype = .known k) : decodedValue p ≠ .vnil := by
  rw [decodedValue, paramToValue, hp]
  cases k <;> by_cases hz : p.valInt = 0 <;> simp [hz]

theorem encode_decodedValue (p : VirTypedParameter) (k : ParamKind)
    (hp : p.ptype = .known k) :
    ∃ p2, encodeParam p (decodedValue p) = .ok p2
      ∧ p2.field = p.field ∧ p2.ptype = p.ptype ∧ decodedValue p2 = decodedValue p := by
  cases k with
  | int =>
    have hdv : decodedValue p = .vnum p.valInt := by rw [decodedValue, paramToValue, hp]
    exact ⟨{ p with valInt := p.valInt }, by rw [encodeParam, hp, hdv]; rfl, rfl, rfl, rfl⟩
  | uint =>
    have hdv : decodedValue p = .vnum p.valInt := by rw [decodedValue, paramToValue, hp]
    exact ⟨{ p with valInt := p.valInt }, by rw [encodeParam, hp, hdv]; rfl, rfl, rfl, rfl⟩
  | llong =>
    have hdv : decodedValue p = .vnum p.valInt := by rw [decodedValue, paramToValue, hp]
    exact ⟨{ p with valInt := p.valInt }, by rw [encodeParam, hp, hdv]; rfl, rfl, rfl, rfl⟩
  | ullong =>
    have hdv : decodedValue p = .vnum p.valInt := by rw [decodedValue, paramToValue, hp]
    exact ⟨{ p with valInt := p.valInt }, by rw [encodeParam, hp, hdv]; rfl, rfl, rfl, rfl⟩
  | double =>
    have hdv : decodedValue p = .vflt p.valInt := by rw [decodedValue, paramToValue, hp]
    exact ⟨{ p with valInt := p.valInt }, by rw [encodeParam, hp, hdv]; rfl, rfl, rfl, rfl⟩
  | string =>
    have hdv : decodedValue p = .vstr p.valStr := by rw [decodedValue, paramToValue, hp]
    exact ⟨{ p with valStr := p.valStr }, by rw [encodeParam, hp, hdv]; rfl, rfl, rfl, rfl⟩
  | boolean =>
    by_cases hz : p.valInt = 0
    · have hdv : decodedValue p = .vbool false := by
        rw [decodedValue, paramToValue, hp]
        simp [hz]
      refine ⟨{ p with valInt := 0 }, ?_, rfl, rfl, ?_⟩
      · rw [encodeParam, hp, hdv]
        simp
      · rw [hdv, decodedValue, paramToValue]
        simp [hp]
    · have hdv : decodedValue p = .vbool true := by
        rw [decodedValue, paramToValue, hp]
        simp [hz]
      refine ⟨{ p with valInt := 1 }, ?_, rfl, rfl, ?_⟩
      · rw [encodeParam, hp, hdv]
        simp
      · rw [hdv, decodedValue, paramToValue]
        simp [hp]

theorem hashHasKey_append (h1 h2 : RHash) (k : String) :
    hashHasKey (h1 ++ h2) k = (hashHasKey h1 k || hashHasKey h2 k) := by
  induction h1 with
  | nil => rfl
  | cons kv rest ih =>
    rw [List.cons_append, hashHasKey, hashHasKey, ih, Bool.or_assoc]

theorem hashAset_of_not_hasKey (h : RHash) (k : String) (v : RubyValue)
    (hk : hashHasKey h k = false) : hashAset h k v = h ++ [(k, v)] := by
  induction h with
  | nil => rfl
  | cons kv rest ih =>
    obtain ⟨k0, v0⟩ := kv
    rw [hashHasKey, Bool.or_eq_false_iff] at hk
    have hne : ¬ k0 = k := by
      intro he
      rw [he] at hk
      simp at hk
    rw [hashAset, if_neg hne, List.cons_append, ih hk.2]

theorem params_to_hash_known (ps : List VirTypedParameter)
    (hk : ∀ p ∈ ps, ∃ k, p.ptype = .known k) :
    ∀ hash, ruby_libvirt_params_to_hash ps hash
      = .ok (List.foldl (fun h p => hashAset h p.field (decodedValue p)) hash ps) := by
  induction ps with
  | nil => intro hash; rfl
  | cons p rest ih =>
    intro hash
    obtain ⟨k, hpk⟩ := hk p (List.mem_cons_self p rest)
    rw [ruby_libvirt_params_to_hash, paramToValue_known p k hpk, List.foldl_cons]
    exact ih (fun q hq => hk q (List.mem_cons_of_mem p hq)) _

theorem foldl_hashAset_nodup (ps : List VirTypedParameter) :
    ∀ acc : RHash,
      (ps.map (fun p => p.field)).Nodup →
      (∀ p ∈ ps, hashHasKey acc p.field = false) →
      List.foldl (fun h p => hashAset h p.field (decodedValue p)) acc ps
        = acc ++ ps.map (fun p => (p.field, decodedValue p)) := by
  induction ps with
  | nil => intro acc _ _; simp
  | cons p rest ih =>
    intro acc hnd hdisj
    rw [List.map_cons, List.nodup_cons] at hnd
    rw [List.foldl_cons,
      hashAset_of_not_hasKey acc p.field _ (hdisj p (List.mem_cons_self p rest))]
    rw [ih (acc ++ [(p.field, decodedValue p)]) hnd.2 ?_]
    · rw [List.map_cons, List.append_assoc, List.singleton_append]
    · intro q hq
      rw [hashHasKey_append, Bool.or_eq_false_iff]
      refine ⟨hdisj q (List.mem_cons_of_mem p hq), ?_⟩
      have hne : p.field ≠ q.field := by
        intro he
        exact hnd.1 (he ▸ List.mem_map_of_mem (fun r => r.field) hq)
      simp [hashHasKey, hne]

theorem hashAref_map_self (ps : List VirTypedParameter) :
    (ps.map (fun p => p.field)).Nodup →
    ∀ p ∈ ps, hashAref (ps.map (fun q => (q.field, decodedValue q))) p.field
      = decodedValue p := by
  induction ps with
  | nil => intro _ p hp; cases hp
  | cons q rest ih =>
    intro hnd p hp
    rw [List.map_cons, List.nodup_cons] at hnd
    rw [List.map_cons, hashAref]
    rcases List.mem_cons.1 hp with he | hm
    · subst he
      rw [if_pos rfl]
    · have hne : ¬ q.field = p.field := by
        intro he
        exact hnd.1 (he ▸ List.mem_map_of_mem (fun r => r.field) hm)
      rw [if_neg hne]
      exact ih hnd.2 p hm

theorem setTypedParamsLoop_fixpoint (input : RHash) :
    ∀ ps : List VirTypedParameter,
      (∀ p ∈ ps, ∃ k, p.ptype = .known k) →
      (∀ p ∈ ps, hashAref input p.field = decodedValue p) →
      ∃ ps2, setTypedParamsLoop input ps = .ok ps2
        ∧ ps2.map (fun p => (p.field, decodedValue p))
            = ps.map (fun p => (p.field, decodedValue p))
        ∧ (∀ q ∈ ps2, ∃ k, q.ptype = .known k) := by
  intro ps
  induction ps with
  | nil =>
    intro _ _
    exact ⟨[], rfl, rfl, by intro q hq; cases hq⟩
  | cons p rest ih =>
    intro hk har
    obtain ⟨k, hpk⟩ := hk p (List.mem_cons_self p rest)
    obtain ⟨p2, henc, hf2, ht2, hdv2⟩ := encode_decodedValue p k hpk
    obtain ⟨rest2, hloop, hmap, hk2⟩ := ih
      (fun q hq => hk q (List.mem_cons_of_mem p hq))
      (fun q hq => har q (List.mem_cons_of_mem p hq))
    have harp := har p (List.mem_cons_self p rest)
    have hnn := decodedValue_ne_vnil p k hpk
    refine ⟨p2 :: rest2, ?_, ?_, ?_⟩
    · rw [setTypedParamsLoop_cons_val input p rest (decodedValue p) harp hnn, henc]
      show (setTypedParamsLoop input rest).map (fun rest2 => p2 :: rest2) = .ok (p2 :: rest2)
      rw [hloop]
      rfl
    · rw [List.map_cons, List.map_cons, hmap, hf2, hdv2]
    · intro q hq
      rcases List.mem_cons.1 hq with he | hm
      · subst he
        exact ⟨k, by rw [ht2, hpk]⟩
      · exact hk2 q hm

/-- The failing input for C7: two slots sharing field name "f", an int
slot then a string slot — every kind tag recognized. -/
def dupFieldParams : List VirTypedParameter :=
  [⟨"f", .known .int, 1, ""⟩, ⟨"f", .known .string, 0, "a"⟩]

/-- C7 counterexample: on a parameter set with all kind tags
recognized but a duplicated field name, the round trip fails: the
decode hash keeps only the LAST slot's value for "f" (the string "a"),
and overlaying that hash back raises `TypeError` at the first (int)
slot, so `decode(encode(decode(p)))` never produces a value at all. -/
theorem typed_params_roundtrip_fails_on_duplicate_fields :
    ruby_libvirt_params_to_hash dupFieldParams [] = .ok [("f", .vstr "a")]
    ∧ setTypedParamsLoop [("f", .vstr "a")] dupFieldParams
        = .error (.std .typeError "no implicit conversion into Integer") :=
  ⟨rfl, rfl⟩

/-- C7 (amended): for every typed-parameter set whose kind tags are
all recognized AND whose field names are distinct, the round trip
holds: decoding yields a hash, overlaying that hash back onto the same
buffer succeeds, and decoding the overlaid buffer yields exactly the
same hash — field names, values and kind tags preserved. -/
theorem typed_parameters_roundtrip (ps : List VirTypedParameter)
    (hnd : (ps.map (fun p => p.field)).Nodup)
    (hk : ∀ p ∈ ps, ∃ k, p.ptype = .known k) :
    ∃ h ps2,
      ruby_libvirt_params_to_hash ps [] = .ok h
      ∧ setTypedParamsLoop h ps = .ok ps2
      ∧ ruby_libvirt_params_to_hash ps2 [] = .ok h := by
  have hdec : ruby_libvirt_params_to_hash ps []
      = .ok (ps.map (fun p => (p.field, decodedValue p))) := by
    rw [params_to_hash_known ps hk [],
      foldl_hashAset_nodup ps [] hnd (fun p _ => rfl), List.nil_append]
  obtain ⟨ps2, hloop, hmap, hk2⟩ := setTypedParamsLoop_fixpoint
    (ps.map (fun p => (p.field, decodedValue p))) ps hk (hashAref_map_self ps hnd)
  have hfields : ps2.map (fun p => p.field) = ps.map (fun p => p.field) := by
    have hcongr := congrArg (List.map Prod.fst) hmap
    simpa using hcongr
  have hnd2 : (ps2.map (fun p => p.field)).Nodup := by
    rw [hfields]
    exact hnd
  have hdec2 : ruby_libvirt_params_to_hash ps2 []
      = .ok (ps2.map (fun p => (p.field, decodedValue p))) := by
    rw [params_to_hash_known ps2 hk2 [],
      foldl_hashAset_nodup ps2 [] hnd2 (fun p _ => rfl), List.nil_append]
  exact ⟨_, ps2, hdec, hloop, by rw [hdec2, hmap]⟩

/-- The spec's own decode scenario used as the round-trip witness
input: kinds [int, string, boolean] with values [42, "a", true]. -/
def roundTripParams : List VirTypedParameter :=
  [⟨"f0", .known .int, 42, ""⟩, ⟨"f1", .known .string, 0, "a"⟩,
   ⟨"f2", .known .boolean, 1, ""⟩]

/-- Concrete run of the C7 theorem on the spec's scenario set. -/
theorem typed_parameters_roundtrip_witness :
    ∃ h ps2,
      ruby_libvirt_params_to_hash roundTripParams [] = .ok h
      ∧ setTypedParamsLoop h roundTripParams = .ok ps2
      ∧ ruby_libvirt_params_to_hash ps2 [] = .ok h := by
  refine typed_parameters_roundtrip roundTripParams (by decide) ?_
  intro p hp
  rw [roundTripParams] at hp
  simp only [List.mem_cons, List.not_mem_nil, or_false] at hp
  rcases hp with h | h | h
  · exact ⟨.int, by rw [h]⟩
  · exact ⟨.string, by rw [h]⟩
  · exact ⟨.boolean, by rw [h]⟩
